import Mathlib

/-!
Shallow embedding of the cloudflare-cname-switcher control plane
(`src/ingress.rs`, `src/endpoints.rs`, `src/integrations/dns.rs`,
`src/integrations/cloudflare.rs`, `src/integrations/telegram.rs`).

Network I/O is abstracted into oracle structures supplying the results of
the individual socket / HTTP operations; everything else mirrors the Rust
control flow.  Machine integers are modelled as `Nat` (overflow is made
explicit where it matters), `std::time::Instant` / `SystemTime` as `Nat`
seconds, `HashSet` iteration as list iteration.
-/

/-- IP addresses: `std::net::IpAddr`, a v4/v6 tagged union.  The numeric
payload abstracts the address bytes; only identity matters here. -/
inductive Ip where
  | v4 (addr : Nat)
  | v6 (addr : Nat)
deriving DecidableEq, Repr

/-- Insert into a list acting as a `HashSet` (no duplicates). -/
def hsInsert {α : Type} [DecidableEq α] (s : List α) (a : α) : List α :=
  if a ∈ s then s else s ++ [a]

/- ------------------------------------------------------------------ -/
/- DNS resolver client, `src/integrations/dns.rs`                      -/
/- ------------------------------------------------------------------ -/

/-- Resource records as found in a DNS answer section (`rustdns::types::Resource`):
only the `A` and `AAAA` constructors are inspected by the code. -/
inductive Resource where
  | A (addr : Nat)
  | AAAA (addr : Nat)
  | other
deriving DecidableEq, Repr

/-- A parsed DNS response (`rustdns::types::Message`): the response code and
the answer section.  `rcode = 0` is `Rcode::NoError`. -/
structure DnsMessage where
  rcode : Nat
  answers : List Resource
deriving DecidableEq, Repr

/-- Error type of the resolver, `DnsError` in `dns.rs`. -/
inductive DnsError where
  | SerializeError
  | BindError
  | ConnectError
  | SendError
  | SendLengthTooShort
  | ReceiveTimeout
  | ReceiveError
  | ReceiveParseError (rcode : Nat)
  | ReceivedUnexpectedType
deriving DecidableEq, Repr

/-- Network oracle for one `_resolve` attempt: the outcome of the A query
round-trip and of the AAAA query round-trip (an `Except.error` stands for
any of the bind/connect/send/receive/parse failures of that phase). -/
structure ResolveEnv where
  respA : Except DnsError DnsMessage
  respAAAA : Except DnsError DnsMessage
deriving Repr

/-- Collect the `A` resource records of an answer section into the
accumulated `HashSet` (the first parsing loop of `_resolve`). -/
def collectA (answers : List Resource) (acc : List Ip) : List Ip :=
  answers.foldl (fun acc r =>
    match r with
    | Resource.A a => hsInsert acc (Ip.v4 a)
    | _ => acc) acc

/-- Collect the `AAAA` resource records of an answer section into the
accumulated `HashSet` (the second parsing loop of `_resolve`). -/
def collectAAAA (answers : List Resource) (acc : List Ip) : List Ip :=
  answers.foldl (fun acc r =>
    match r with
    | Resource.AAAA a => hsInsert acc (Ip.v6 a)
    | _ => acc) acc

/-- One resolution attempt, `DnsConfiguration::_resolve` (dns.rs:74-167).
The A block inserts into the outer `returnme`; the AAAA block of the source
(dns.rs:156-162) declares a fresh `let mut returnme` that shadows the outer
set, so its contents are dropped when the block ends — the embedding keeps
that shadowed set as `returnmeShadow` and, like the source, returns only the
outer set. -/
def dnsResolveOnce (env : ResolveEnv) : Except DnsError (List Ip) :=
  match env.respA with
  | Except.error e => Except.error e
  | Except.ok answer =>
    if answer.rcode ≠ 0 then Except.error (DnsError.ReceiveParseError answer.rcode)
    else
      let returnme := collectA answer.answers []
      match env.respAAAA with
      | Except.error e => Except.error e
      | Except.ok answer2 =>
        if answer2.rcode ≠ 0 then Except.error (DnsError.ReceiveParseError answer2.rcode)
        else
          let returnmeShadow := collectAAAA answer2.answers []
          let _ := returnmeShadow
          Except.ok returnme

/-- The retry wrapper `DnsConfiguration::resolve` (dns.rs:169-186): attempts
run until one succeeds or `retry` extra attempts are exhausted; the list
holds the per-attempt network environments (length `retry + 1`). -/
def dnsResolve (envs : List ResolveEnv) : Except DnsError (List Ip) :=
  match envs with
  | [] => Except.error DnsError.ReceiveError
  | [env] => dnsResolveOnce env
  | env :: rest =>
    match dnsResolveOnce env with
    | Except.ok r => Except.ok r
    | Except.error _ => dnsResolve rest

/- ------------------------------------------------------------------ -/
/- Endpoints, `src/endpoints.rs`                                       -/
/- ------------------------------------------------------------------ -/

/-- An endpoint (`Endpoint` in endpoints.rs) as the selector sees it in one
cycle: the immutable configuration fields used by `Ingress::run` plus a
snapshot of the `healthy` atomic.  Equality/hashing of the Rust type uses
only `name`, which the embedding mirrors through `Endpoint.same`. -/
structure Endpoint where
  name : String
  /-- `dns.record`, the FQDN this endpoint's CNAME would point at. -/
  dnsRecord : String
  /-- `dns.ttl`. -/
  ttl : Nat
  /-- lower values mean higher priority. -/
  weight : Nat
  /-- `sticky_duration` in seconds, `None` when stickiness is disabled. -/
  sticky_duration : Option Nat
  /-- snapshot of the `healthy` atomic bool. -/
  healthy : Bool
deriving DecidableEq, Repr

/-- Identity comparison of endpoints (`PartialEq for Endpoint`,
endpoints.rs:379-383): by `name` only. -/
def Endpoint.same (a b : Endpoint) : Bool :=
  a.name == b.name

/-- One entry of the selector's active set,
`EndpointWithTimestampAndPrimary = (EndpointArc, Instant, bool)`. -/
abbrev ActiveEntry := Endpoint × Nat × Bool

/- ------------------------------------------------------------------ -/
/- Selector / reconciler, `Ingress::run` in `src/ingress.rs`           -/
/- ------------------------------------------------------------------ -/

/-- Primary selection (ingress.rs:220-240): scan the healthy endpoints,
keeping the first one seen and replacing it whenever a strictly lower
weight shows up. -/
def selectPrimary (healthy : List Endpoint) : Option Endpoint :=
  healthy.foldl (fun found e =>
    match found with
    | some cur => if e.weight < cur.weight then some e else some cur
    | none => some e) none

/-- Stickiness pass of the selector (ingress.rs:249-279): walk the previous
active set, skipping unhealthy, non-sticky and already-selected endpoints;
re-add a demoted primary with the current instant, and a non-primary whose
sticky window is still open with its old timestamp. -/
def addSticky (now : Nat) : List ActiveEntry → List ActiveEntry → List ActiveEntry
  | [], acc => acc
  | (e, ts, primary) :: rest, acc =>
    if !e.healthy then addSticky now rest acc
    else
      match e.sticky_duration with
      | none => addSticky now rest acc
      | some d =>
        if acc.any (fun x => x.1.same e) then addSticky now rest acc
        else if primary then addSticky now rest (acc ++ [(e, now, false)])
        else if ts + d > now then addSticky now rest (acc ++ [(e, ts, false)])
        else addSticky now rest acc

/-- The new active set computed by one selector cycle (ingress.rs:219-279):
`none` when no endpoint is healthy (the cycle is skipped), otherwise the
primary entry followed by the surviving sticky entries. -/
def newActiveOf (endpoints : List Endpoint) (last : List ActiveEntry) (now : Nat) :
    Option (List ActiveEntry) :=
  (selectPrimary (endpoints.filter (·.healthy))).map
    (fun p => addSticky now last [(p, now, true)])

/-- Abstraction of the Telegram notification text built in
ingress.rs:322-335: the escaped name of the new primary, and one line per
entry of the weight-keyed `HashMap` — rendered as
(weight, endpoint name, health snapshot) triples in the order the message
lists them. -/
structure Message where
  primaryName : String
  listed : List (Nat × String × Bool)
deriving DecidableEq, Repr

/-- Insertion into the `HashMap<u8, &EndpointArc>` keyed by weight
(ingress.rs:328-331): an existing entry with the same weight is
overwritten. -/
def insertByWeight (m : List (Nat × Endpoint)) (e : Endpoint) : List (Nat × Endpoint) :=
  if m.any (fun kv => kv.1 == e.weight) then
    m.map (fun kv => if kv.1 == e.weight then (kv.1, e) else kv)
  else m ++ [(e.weight, e)]

/-- The notification message (ingress.rs:322-335): name the new primary,
then list the map's entries sorted by weight ascending. -/
def buildMessage (endpoints : List Endpoint) (p : Endpoint) : Message :=
  let m := endpoints.foldl insertByWeight []
  let sorted := m.insertionSort (fun a b => a.1 ≤ b.1)
  { primaryName := p.name
    listed := sorted.map (fun kv => (kv.1, kv.2.name, kv.2.healthy)) }

/-- Externally visible effects of one selector cycle. -/
structure CycleEffects where
  /-- the endpoint set handed to `CloudflareConfiguration::update`,
  `none` when the cycle skipped before reaching the provider. -/
  cfEndpoints : Option (List Endpoint)
  /-- the notification enqueued via `queue_and_send`, if any. -/
  notified : Option Message
deriving DecidableEq, Repr

/-- One iteration of the selector loop past the `select!`
(ingress.rs:212-349), as a function of the configured endpoints (with their
health snapshots), the previous active set, the current instant, whether
Telegram is configured, and whether the 3-attempt Cloudflare update
succeeds.  Returns the next `last_active_endpoints` and the effects. -/
def runCycle (endpoints : List Endpoint) (last : List ActiveEntry) (now : Nat)
    (hasTelegram cfOk : Bool) : List ActiveEntry × CycleEffects :=
  match selectPrimary (endpoints.filter (·.healthy)) with
  | none => (last, { cfEndpoints := none, notified := none })
  | some p =>
    let newActive := addSticky now last [(p, now, true)]
    let cfEndpoints := newActive.map (·.1)
    if !cfOk then (last, { cfEndpoints := some cfEndpoints, notified := none })
    else
      let lastPrioritized := last.find? (fun x => x.2.2)
      let changed :=
        match lastPrioritized with
        | none => true
        | some (e, _, _) => !(e.same p)
      let notified :=
        if hasTelegram && changed then some (buildMessage endpoints p) else none
      (newActive, { cfEndpoints := some cfEndpoints, notified := notified })

/- ------------------------------------------------------------------ -/
/- Endpoint monitor confidence loop, `Endpoint::monitor`               -/
/- (endpoints.rs:190-303)                                              -/
/- ------------------------------------------------------------------ -/

/-- Outcome of the probing part of one monitor-loop iteration, deciding how
`confidence` evolves (endpoints.rs:207-302). -/
inductive ProbeOutcome where
  /-- DNS re-resolution failed: `continue`, confidence untouched. -/
  | resolveFail
  /-- resolved set empty: `confidence = 0`. -/
  | emptyDns
  /-- HTTP probe failed: `confidence = 0`. -/
  | httpFail
  /-- marker configured but missing from the body: `confidence = 0`. -/
  | markerMiss
  /-- probe succeeded (and marker found, if configured): `confidence += 1`. -/
  | success
deriving DecidableEq, Repr

/-- The clamp at the top of the monitor loop (endpoints.rs:193-199):
when `confidence` has reached the threshold it is reset to exactly the
threshold ("prevent overflow"); this is also the point where `healthy`
is published. -/
def monitorClamp (threshold conf : Nat) : Nat :=
  if conf ≥ threshold then threshold else conf

/-- One full monitor-loop iteration acting on `confidence`: first the
top-of-loop clamp, then the effect of the probe outcome.  `confidence` is a
`u8` in the source; the embedding uses `Nat` so that the `+ 1` is exact and
an escape above 255 is visible rather than wrapping. -/
def monitorIter (threshold : Nat) (conf : Nat) (o : ProbeOutcome) : Nat :=
  let conf := monitorClamp threshold conf
  match o with
  | ProbeOutcome.resolveFail => conf
  | ProbeOutcome.emptyDns => 0
  | ProbeOutcome.httpFail => 0
  | ProbeOutcome.markerMiss => 0
  | ProbeOutcome.success => conf + 1

/-- Confidence after a sequence of monitor-loop iterations, starting from
`let mut confidence = 0` (endpoints.rs:190). -/
def monitorRun (threshold : Nat) (outcomes : List ProbeOutcome) : Nat :=
  outcomes.foldl (monitorIter threshold) 0

/- ------------------------------------------------------------------ -/
/- DNS-provider reconciler, `src/integrations/cloudflare.rs`           -/
/- ------------------------------------------------------------------ -/

/-- Desired provider state, `CloudflareDnsValues` (cloudflare.rs:21-24). -/
inductive CloudflareDnsValues where
  | CName (target : String)
  | CNameWithSticky (ips : List Ip)
deriving DecidableEq, Repr

/-- Variant comparison `CloudflareDnsValues::same_type`
(cloudflare.rs:42-50). -/
def CloudflareDnsValues.same_type : CloudflareDnsValues → CloudflareDnsValues → Bool
  | CloudflareDnsValues.CName _, CloudflareDnsValues.CName _ => true
  | CloudflareDnsValues.CNameWithSticky _, CloudflareDnsValues.CNameWithSticky _ => true
  | _, _ => false

/-- Set equality of the ip lists (the `HashSet<IpAddr>` payloads compare as
sets in the source's `PartialEq`). -/
def ipSetEq (a b : List Ip) : Bool :=
  a.all (fun x => b.contains x) && b.all (fun x => a.contains x)

/-- Equality of desired states, `PartialEq for CloudflareDnsValues`
(cloudflare.rs:26-39): same variant and equal payload. -/
def CloudflareDnsValues.beq : CloudflareDnsValues → CloudflareDnsValues → Bool
  | CloudflareDnsValues.CName a, CloudflareDnsValues.CName b => a == b
  | CloudflareDnsValues.CNameWithSticky a, CloudflareDnsValues.CNameWithSticky b => ipSetEq a b
  | _, _ => false

/-- Error type `CloudflareApiError` (cloudflare.rs:7-12); the payloads are
dropped. -/
inductive CloudflareApiError where
  | Http
  | JsonParseError
  | SchemaParseError
deriving DecidableEq, Repr

/-- Error type `CloudflareUpdateError` (cloudflare.rs:14-19). -/
inductive CloudflareUpdateError where
  | ApiError (e : CloudflareApiError)
  | DnsError (e : DnsError)
  | Conflict
deriving DecidableEq, Repr

/-- Provider API calls issued during a reconciliation, in order. -/
inductive CfAction where
  | list
  | delete (recordId : String)
  | createCName (content : String) (ttl : Nat)
  | createAddr (ip : Ip) (ttl : Nat)
  | patchCName (recordId : String) (content : String) (ttl : Nat)
deriving DecidableEq, Repr

/-- Oracle for the provider API: results of the individual REST calls made
by `inner_update`. -/
structure CfEnv where
  /-- `name_to_record_ids`: the ids currently present for the name, or an
  API error. -/
  listResult : Except CloudflareApiError (List String)
  /-- `delete_record` per id. -/
  deleteResult : String → Except CloudflareApiError Unit
  /-- `create_record_cname`. -/
  createCNameResult : Except CloudflareApiError String
  /-- `create_record_a_or_aaaa` per address. -/
  createAddrResult : Ip → Except CloudflareApiError String
  /-- `update_record_cname` (the PATCH). -/
  patchResult : Except CloudflareApiError String

/-- The delete loop of the full-cleanup path (cloudflare.rs:418-422):
delete each listed record, stopping at the first API error. -/
def deleteAll (env : CfEnv) : List String → Except CloudflareApiError Unit × List CfAction
  | [] => (Except.ok (), [])
  | id :: rest =>
    match env.deleteResult id with
    | Except.error e => (Except.error e, [CfAction.delete id])
    | Except.ok _ =>
      let (r, acts) := deleteAll env rest
      (r, CfAction.delete id :: acts)

/-- The create loop of the multi-address branch (cloudflare.rs:449-455):
create one A/AAAA record per address, stopping at the first API error. -/
def createAllAddrs (env : CfEnv) (ttl : Nat) :
    List Ip → Except CloudflareApiError Unit × List CfAction
  | [] => (Except.ok (), [])
  | ip :: rest =>
    match env.createAddrResult ip with
    | Except.error e => (Except.error e, [CfAction.createAddr ip ttl])
    | Except.ok _ =>
      let (r, acts) := createAllAddrs env ttl rest
      (r, CfAction.createAddr ip ttl :: acts)

/-- The full-cleanup phase (cloudflare.rs:413-423): enumerate the existing
records for the name and delete each of them. -/
def fullCleanup (env : CfEnv) : Except CloudflareUpdateError Unit × List CfAction :=
  match env.listResult with
  | Except.error e => (Except.error (CloudflareUpdateError.ApiError e), [CfAction.list])
  | Except.ok ids =>
    let (r, acts) := deleteAll env ids
    match r with
    | Except.error e => (Except.error (CloudflareUpdateError.ApiError e), CfAction.list :: acts)
    | Except.ok _ => (Except.ok (), CfAction.list :: acts)

/-- The update-in-place phase (cloudflare.rs:425-441): enumerate the
records; exactly one must exist, which is then PATCHed; any other count is
a `Conflict`. -/
def justUpdatePhase (env : CfEnv) (cname : String) (ttl : Nat) :
    Except CloudflareUpdateError Unit × List CfAction :=
  match env.listResult with
  | Except.error e => (Except.error (CloudflareUpdateError.ApiError e), [CfAction.list])
  | Except.ok ids =>
    match ids with
    | [id] =>
      match env.patchResult with
      | Except.error e =>
        (Except.error (CloudflareUpdateError.ApiError e),
          [CfAction.list, CfAction.patchCName id cname ttl])
      | Except.ok _ => (Except.ok (), [CfAction.list, CfAction.patchCName id cname ttl])
    | _ => (Except.error CloudflareUpdateError.Conflict, [CfAction.list])

/-- The creation phase of the non-update path (cloudflare.rs:442-457): one
CNAME record, or one A/AAAA record per address. -/
def createPhase (env : CfEnv) (state : CloudflareDnsValues) (ttl : Nat) :
    Except CloudflareUpdateError Unit × List CfAction :=
  match state with
  | CloudflareDnsValues.CName cname =>
    match env.createCNameResult with
    | Except.error e =>
      (Except.error (CloudflareUpdateError.ApiError e), [CfAction.createCName cname ttl])
    | Except.ok _ => (Except.ok (), [CfAction.createCName cname ttl])
  | CloudflareDnsValues.CNameWithSticky ips =>
    let (r, acts) := createAllAddrs env ttl ips
    (r.mapError CloudflareUpdateError.ApiError, acts)

/-- Full cleanup followed by record creation — the `full_cleanup = true`
route of `inner_update`.  On success the cache is overwritten with the new
state (cloudflare.rs:459); on error the cache is left as it was (the public
wrapper resets it). -/
def applyFullThenCreate (env : CfEnv) (state : CloudflareDnsValues) (ttl : Nat)
    (cache : Option CloudflareDnsValues) :
    Except CloudflareUpdateError Unit × Option CloudflareDnsValues × List CfAction :=
  let (r1, acts1) := fullCleanup env
  match r1 with
  | Except.error e => (Except.error e, cache, acts1)
  | Except.ok _ =>
    let (r2, acts2) := createPhase env state ttl
    match r2 with
    | Except.error e => (Except.error e, cache, acts1 ++ acts2)
    | Except.ok _ => (Except.ok (), some state, acts1 ++ acts2)

/-- The reconciliation core of `CloudflareConfiguration::inner_update`
(cloudflare.rs:387-461), acting on the cache and the freshly computed
desired state: no-op when the cache equals the state, update-in-place when
both cache and state are `CName`, full cleanup plus creation otherwise.
Returns the result, the cache content after the call, and the API calls
made. -/
def inner_update (cache : Option CloudflareDnsValues) (state : CloudflareDnsValues)
    (ttl : Nat) (env : CfEnv) :
    Except CloudflareUpdateError Unit × Option CloudflareDnsValues × List CfAction :=
  match cache with
  | none => applyFullThenCreate env state ttl cache
  | some c =>
    if c.beq state then (Except.ok (), cache, [])
    else
      match c, state with
      | CloudflareDnsValues.CName _, CloudflareDnsValues.CName cname =>
        let (r, acts) := justUpdatePhase env cname ttl
        match r with
        | Except.ok _ => (Except.ok (), some state, acts)
        | Except.error e => (Except.error e, cache, acts)
      | CloudflareDnsValues.CName _, CloudflareDnsValues.CNameWithSticky _ =>
        applyFullThenCreate env state ttl cache
      | CloudflareDnsValues.CNameWithSticky _, CloudflareDnsValues.CName _ =>
        applyFullThenCreate env state ttl cache
      | CloudflareDnsValues.CNameWithSticky _, CloudflareDnsValues.CNameWithSticky _ =>
        applyFullThenCreate env state ttl cache

/-- Desired-state computation at the top of `inner_update`
(cloudflare.rs:369-385): a single endpoint yields a CNAME to its record,
several endpoints yield the union of their resolved addresses.  `resolver`
is the oracle for `Endpoint::resolve_dns`. -/
def resolveUnion (resolver : Endpoint → Except DnsError (List Ip)) :
    List Endpoint → List Ip → Except DnsError (List Ip)
  | [], acc => Except.ok acc
  | e :: rest, acc =>
    match resolver e with
    | Except.error er => Except.error er
    | Except.ok ips => resolveUnion resolver rest (ips.foldl hsInsert acc)

/-- Compute the `CloudflareDnsValues` for a non-empty endpoint set
(cloudflare.rs:369-385). -/
def computeState (endpoints : List Endpoint)
    (resolver : Endpoint → Except DnsError (List Ip)) :
    Except DnsError CloudflareDnsValues :=
  match endpoints with
  | [e] => Except.ok (CloudflareDnsValues.CName e.dnsRecord)
  | _ =>
    match resolveUnion resolver endpoints [] with
    | Except.error e => Except.error e
    | Except.ok ips => Except.ok (CloudflareDnsValues.CNameWithSticky ips)

/-- The public operation `CloudflareConfiguration::update`
(cloudflare.rs:359-484) including the `assert!` on a non-empty endpoint set
at the top of `inner_update` (cloudflare.rs:365-368): `none` models the
panic; otherwise the result, the cache after the call (reset to absent on
any error by the wrapper, cloudflare.rs:470-477), and the API calls. -/
def cloudflareUpdate (endpoints : List Endpoint)
    (resolver : Endpoint → Except DnsError (List Ip))
    (cache : Option CloudflareDnsValues) (ttl : Nat) (env : CfEnv) :
    Option (Except CloudflareUpdateError Unit × Option CloudflareDnsValues × List CfAction) :=
  if endpoints.isEmpty then none
  else
    match computeState endpoints resolver with
    | Except.error e => some (Except.error (CloudflareUpdateError.DnsError e), none, [])
    | Except.ok state =>
      let (r, cache', acts) := inner_update cache state ttl env
      match r with
      | Except.ok _ => some (Except.ok (), cache', acts)
      | Except.error e => some (Except.error e, none, acts)

/- ------------------------------------------------------------------ -/
/- Notification queue, `src/integrations/telegram.rs`                  -/
/- ------------------------------------------------------------------ -/

/-- One queue entry, `(String, SystemTime)` (telegram.rs:8): the message
text and its wall-clock creation time in seconds. -/
structure QEntry where
  text : String
  created : Nat
deriving DecidableEq, Repr

/-- The delayed-message suffix appended in telegram.rs:131-134; `rfc` is
the abstracted `chrono` RFC-3339 renderer for the creation timestamp. -/
def delayedSuffix (rfc : Nat → String) (created : Nat) : String :=
  "\n\n_This is a delayed message from `" ++ rfc created ++ "`._"

/-- Message preparation at the top of the drain loop (telegram.rs:122-135):
`timestamp.elapsed()` in whole seconds, and the delayed-message annotation
when more than 10 seconds have passed. -/
def prepareText (rfc : Nat → String) (now : Nat) (e : QEntry) : String :=
  let elapsed := now - e.created
  if elapsed > 10 then e.text ++ delayedSuffix rfc e.created else e.text

/-- The drain loop of `TelegramConfiguration::send` (telegram.rs:120-184):
peek at the front entry, prepare the text, POST it (`post k` is the oracle
result of the k-th POST of this drain), pop on success, abort keeping the
rest of the queue on failure.  Returns the texts POSTed in order and the
queue left behind. -/
def sendLoop (rfc : Nat → String) (now : Nat) (post : Nat → Bool) (k : Nat) :
    List QEntry → List String × List QEntry
  | [] => ([], [])
  | entry :: rest =>
    let content := prepareText rfc now entry
    if post k then
      let (sent, q) := sendLoop rfc now post (k + 1) rest
      (content :: sent, q)
    else ([], entry :: rest)

/-- The operation `TelegramConfiguration::send` (telegram.rs:110-185): an
empty queue returns immediately, a queue longer than 128 panics (`none`),
otherwise the drain loop runs. -/
def telegramSend (rfc : Nat → String) (now : Nat) (post : Nat → Bool)
    (queue : List QEntry) : Option (List String × List QEntry) :=
  if queue.isEmpty then some ([], queue)
  else if queue.length > 128 then none
  else some (sendLoop rfc now post 0 queue)

/- ------------------------------------------------------------------ -/
/- Helper lemmas about the selector                                    -/
/- ------------------------------------------------------------------ -/

theorem Endpoint.same_refl (a : Endpoint) : a.same a = true := by
  simp [Endpoint.same]

theorem Endpoint.same_comm (a b : Endpoint) : a.same b = b.same a := by
  simp only [Endpoint.same]
  by_cases h : a.name = b.name
  · simp [h]
  · have h' : ¬b.name = a.name := fun hh => h hh.symm
    simp [h, h']

/-- The active set holds at most one entry per endpoint identity: all
pairs of entries have distinct names. -/
def identNodup (l : List ActiveEntry) : Prop :=
  l.Pairwise (fun a b => a.1.same b.1 = false)

theorem identNodup_mem_unique {l : List ActiveEntry} (h : identNodup l)
    {x y : ActiveEntry} (hx : x ∈ l) (hy : y ∈ l)
    (hxy : x.1.same y.1 = true) : x = y := by
  induction l with
  | nil => cases hx
  | cons a t ih =>
    rcases List.pairwise_cons.mp h with ⟨ha, ht⟩
    rcases List.mem_cons.mp hx with rfl | hx'
    · rcases List.mem_cons.mp hy with rfl | hy'
      · rfl
      · exact absurd hxy (by simp [ha y hy'])
    · rcases List.mem_cons.mp hy with rfl | hy'
      · have := ha x hx'
        rw [Endpoint.same_comm] at this
        exact absurd hxy (by simp [this])
      · exact ih ht hx' hy'

/-- What one entry of the previous active set contributes to the new one,
given the selected primary `p` (the per-entry logic of
ingress.rs:249-279). -/
def stickyStep (p : Endpoint) (now : Nat) : ActiveEntry → Option ActiveEntry
  | (e, ts, primary) =>
    if !e.healthy then none
    else
      match e.sticky_duration with
      | none => none
      | some d =>
        if p.same e then none
        else if primary then some (e, now, false)
        else if ts + d > now then some (e, ts, false)
        else none

theorem addSticky_gen (p : Endpoint) (now : Nat) :
    ∀ (l acc : List ActiveEntry), identNodup l →
      (∀ ent ∈ l, acc.any (fun x => x.1.same ent.1) = p.same ent.1) →
      addSticky now l acc = acc ++ l.filterMap (stickyStep p now) := by
  intro l
  induction l with
  | nil => intro acc _ _; simp [addSticky]
  | cons ent rest ih =>
    intro acc hnd hacc
    obtain ⟨e, ts, primary⟩ := ent
    rcases List.pairwise_cons.mp hnd with ⟨hhead, htail⟩
    have hmem := hacc (e, ts, primary) (List.mem_cons_self _ _)
    by_cases hh : e.healthy
    · cases hd : e.sticky_duration with
      | none =>
        rw [show addSticky now ((e, ts, primary) :: rest) acc = addSticky now rest acc by
          simp [addSticky, hh, hd]]
        rw [ih acc htail (fun x hx => hacc x (List.mem_cons_of_mem _ hx))]
        simp [stickyStep, hh, hd]
      | some d =>
        by_cases hpe : p.same e = true
        · rw [show addSticky now ((e, ts, primary) :: rest) acc = addSticky now rest acc by
            simp [addSticky, hh, hd, hmem, hpe]]
          rw [ih acc htail (fun x hx => hacc x (List.mem_cons_of_mem _ hx))]
          simp [stickyStep, hh, hd, hpe]
        · have hpe' : p.same e = false := by simpa using hpe
          have hext : ∀ (z : ActiveEntry), ∀ x ∈ rest,
              (acc ++ [(e, z.2.1, false)]).any (fun y => y.1.same x.1) = p.same x.1 := by
            intro z x hx
            have : e.same x.1 = false := hhead x hx
            simp [List.any_append, hacc x (List.mem_cons_of_mem _ hx), this]
          by_cases hpr : primary = true
          · rw [show addSticky now ((e, ts, primary) :: rest) acc =
                addSticky now rest (acc ++ [(e, now, false)]) by
              simp [addSticky, hh, hd, hmem, hpe', hpr]]
            rw [ih (acc ++ [(e, now, false)]) htail (hext (e, now, false))]
            simp [stickyStep, hh, hd, hpe', hpr, List.append_assoc]
          · have hpr' : primary = false := by simpa using hpr
            by_cases hexp : ts + d > now
            · rw [show addSticky now ((e, ts, primary) :: rest) acc =
                  addSticky now rest (acc ++ [(e, ts, false)]) by
                simp [addSticky, hh, hd, hmem, hpe', hpr', hexp]]
              rw [ih (acc ++ [(e, ts, false)]) htail (hext (e, ts, false))]
              simp [stickyStep, hh, hd, hpe', hpr', hexp, List.append_assoc]
            · rw [show addSticky now ((e, ts, primary) :: rest) acc =
                  addSticky now rest acc by
                simp [addSticky, hh, hd, hmem, hpe', hpr', hexp]]
              rw [ih acc htail (fun x hx => hacc x (List.mem_cons_of_mem _ hx))]
              simp [stickyStep, hh, hd, hpe', hpr', hexp]
    · have hh' : e.healthy = false := by simpa using hh
      rw [show addSticky now ((e, ts, primary) :: rest) acc = addSticky now rest acc by
        simp [addSticky, hh']]
      rw [ih acc htail (fun x hx => hacc x (List.mem_cons_of_mem _ hx))]
      simp [stickyStep, hh']

/-- The stickiness pass, characterized: under the invariant that the
previous active set has one entry per identity, the new active set is the
primary entry followed by the per-entry contributions in order. -/
theorem addSticky_characterization (p : Endpoint) (now : Nat)
    (last : List ActiveEntry) (hnd : identNodup last) :
    addSticky now last [(p, now, true)] =
      (p, now, true) :: last.filterMap (stickyStep p now) := by
  have := addSticky_gen p now last [(p, now, true)] hnd (fun ent _ => by simp)
  simpa using this

theorem stickyStep_some {p : Endpoint} {now : Nat} {ent x : ActiveEntry}
    (h : stickyStep p now ent = some x) :
    x.1 = ent.1 ∧ x.2.2 = false ∧ p.same x.1 = false ∧
      x.1.sticky_duration ≠ none ∧ x.1.healthy = true := by
  obtain ⟨e, ts, pr⟩ := ent
  by_cases hh : e.healthy
  · cases hd : e.sticky_duration with
    | none => simp [stickyStep, hh, hd] at h
    | some d =>
      by_cases hpe : p.same e = true
      · simp [stickyStep, hh, hd, hpe] at h
      · have hpe' : p.same e = false := by simpa using hpe
        by_cases hpr : pr = true
        · simp [stickyStep, hh, hd, hpe', hpr] at h
          simp [← h, hh, hd, hpe']
        · have hpr' : pr = false := by simpa using hpr
          by_cases hexp : ts + d > now
          · simp [stickyStep, hh, hd, hpe', hpr', hexp] at h
            simp [← h, hh, hd, hpe']
          · simp [stickyStep, hh, hd, hpe', hpr', hexp] at h
  · have hh' : e.healthy = false := by simpa using hh
    simp [stickyStep, hh'] at h

theorem addSticky_prefix (now : Nat) :
    ∀ (l acc : List ActiveEntry), ∃ rest, addSticky now l acc = acc ++ rest := by
  intro l
  induction l with
  | nil => intro acc; exact ⟨[], by simp [addSticky]⟩
  | cons ent tail ih =>
    intro acc
    obtain ⟨e, ts, pr⟩ := ent
    by_cases hh : e.healthy
    · cases hd : e.sticky_duration with
      | none => simpa [addSticky, hh, hd] using ih acc
      | some d =>
        by_cases hmem : acc.any (fun x => x.1.same e) = true
        · simpa [addSticky, hh, hd, hmem] using ih acc
        · have hmem' : acc.any (fun x => x.1.same e) = false := Bool.eq_false_iff.mpr hmem
          by_cases hpr : pr = true
          · obtain ⟨r, hr⟩ := ih (acc ++ [(e, now, false)])
            exact ⟨(e, now, false) :: r, by
              simp [addSticky, hh, hd, hmem', hpr, hr]⟩
          · have hpr' : pr = false := by simpa using hpr
            by_cases hexp : ts + d > now
            · obtain ⟨r, hr⟩ := ih (acc ++ [(e, ts, false)])
              exact ⟨(e, ts, false) :: r, by
                simp [addSticky, hh, hd, hmem', hpr', hexp, hr]⟩
            · simpa [addSticky, hh, hd, hmem', hpr', hexp] using ih acc
    · have hh' : e.healthy = false := by simpa using hh
      simpa [addSticky, hh'] using ih acc

/-- Sample endpoint used for concrete evaluations: healthy, weight 10,
no stickiness. -/
def epA : Endpoint :=
  { name := "a", dnsRecord := "a.example", ttl := 60, weight := 10,
    sticky_duration := none, healthy := true }

/-- Sample endpoint: healthy, weight 20, 30 seconds of stickiness. -/
def epB : Endpoint :=
  { name := "b", dnsRecord := "b.example", ttl := 120, weight := 20,
    sticky_duration := some 30, healthy := true }

/-- Sample endpoint: unhealthy, weight 10, no stickiness. -/
def epAdown : Endpoint :=
  { name := "a", dnsRecord := "a.example", ttl := 60, weight := 10,
    sticky_duration := none, healthy := false }

/-- Sample endpoint sharing its weight with `epA`: healthy, weight 10. -/
def epC : Endpoint :=
  { name := "c", dnsRecord := "c.example", ttl := 60, weight := 10,
    sticky_duration := none, healthy := true }

/-- C7: a selector cycle in which no endpoint is healthy is skipped whole:
the provider is not contacted, nothing is enqueued for notification, and
`last_active_endpoints` is left exactly as it was. -/
theorem c7_no_healthy_skips_cycle (endpoints : List Endpoint)
    (last : List ActiveEntry) (now : Nat) (hasTelegram cfOk : Bool)
    (h : ∀ e ∈ endpoints, e.healthy = false) :
    runCycle endpoints last now hasTelegram cfOk =
      (last, { cfEndpoints := none, notified := none }) := by
  have hf : endpoints.filter (·.healthy) = [] := by
    rw [List.filter_eq_nil_iff]
    intro a ha
    simp [h a ha]
  simp [runCycle, hf, selectPrimary]

/-- C7 witness: a concrete cycle with a single unhealthy endpoint changes
nothing. -/
theorem c7_no_healthy_skips_cycle_witness :
    runCycle [epAdown] [] 0 true true =
      ([], { cfEndpoints := none, notified := none }) :=
  c7_no_healthy_skips_cycle _ _ _ _ _ (by decide)

/-- C6: whenever a cycle computes a new active set, that set has exactly
one primary entry, at most one entry per endpoint identity, and endpoints
without a sticky duration occur only as the primary entry. -/
theorem c6_new_active_invariants (endpoints : List Endpoint)
    (last : List ActiveEntry) (now : Nat) (na : List ActiveEntry)
    (hnd : identNodup last)
    (hna : newActiveOf endpoints last now = some na) :
    (na.filter (fun x => x.2.2)).length = 1 ∧ identNodup na ∧
      (∀ x ∈ na, x.1.sticky_duration = none → x.2.2 = true) := by
  obtain ⟨p, hp, hmap⟩ := Option.map_eq_some'.mp hna
  have hchar : na = (p, now, true) :: last.filterMap (stickyStep p now) := by
    rw [← hmap, addSticky_characterization p now last hnd]
  subst hchar
  refine ⟨?_, ?_, ?_⟩
  · have htail : (last.filterMap (stickyStep p now)).filter (fun x => x.2.2) = [] := by
      rw [List.filter_eq_nil_iff]
      intro x hx
      obtain ⟨ent, _, hstep⟩ := List.mem_filterMap.mp hx
      have := (stickyStep_some hstep).2.1
      simp [this]
    simp [List.filter_cons, htail]
  · constructor
    · intro y hy
      obtain ⟨ent, _, hstep⟩ := List.mem_filterMap.mp hy
      obtain ⟨_, _, hps, _, _⟩ := stickyStep_some hstep
      simpa using hps
    · refine List.Pairwise.filterMap (stickyStep p now) ?_ hnd
      intro a b hab x hx y hy
      have hxa := (stickyStep_some hx).1
      have hyb := (stickyStep_some hy).1
      rw [hxa, hyb]
      exact hab
  · intro x hx hsd
    rcases List.mem_cons.mp hx with rfl | hx'
    · rfl
    · obtain ⟨ent, _, hstep⟩ := List.mem_filterMap.mp hx'
      exact absurd hsd (stickyStep_some hstep).2.2.2.1

/-- C6 witness: a concrete cycle with one healthy endpoint and a sticky
survivor in the previous active set. -/
theorem c6_new_active_invariants_witness :
    (([(epA, 5, true), (epB, 5, false)].filter
        (fun x : ActiveEntry => x.2.2)).length = 1) := by
  have h := c6_new_active_invariants [epA, epB] [(epB, 2, true)] 5
    [(epA, 5, true), (epB, 5, false)]
    (by simp [identNodup]) (by decide)
  exact h.1

/-- C2: in a cycle that computes a new active set, a previously active
endpoint that is healthy, sticky, and not the new primary is re-added with
a refreshed timestamp when it was the primary, carried with its old
timestamp exactly when its sticky window is still open, and dropped
otherwise. -/
theorem c2_sticky_refresh_carry_drop (endpoints : List Endpoint)
    (last : List ActiveEntry) (now : Nat) (p : Endpoint) (na : List ActiveEntry)
    (hnd : identNodup last)
    (hp : selectPrimary (endpoints.filter (·.healthy)) = some p)
    (hna : newActiveOf endpoints last now = some na)
    (e : Endpoint) (since : Nat) (wasPrimary : Bool) (d : Nat)
    (hmem : (e, since, wasPrimary) ∈ last)
    (hh : e.healthy = true) (hd : e.sticky_duration = some d)
    (hne : e.same p = false) :
    (wasPrimary = true → (e, now, false) ∈ na) ∧
    (wasPrimary = false →
      (((e, since, false) ∈ na) ↔ since + d > now) ∧
      (since + d ≤ now → ∀ x ∈ na, x.1.same e = false)) := by
  have hpe : p.same e = false := by rw [Endpoint.same_comm]; exact hne
  have hna' : na = (p, now, true) :: last.filterMap (stickyStep p now) := by
    rw [newActiveOf, hp] at hna
    simp only [Option.map_some'] at hna
    rw [← Option.some.inj hna, addSticky_characterization p now last hnd]
  subst hna'
  constructor
  · intro hwp
    subst hwp
    apply List.mem_cons_of_mem
    apply List.mem_filterMap.mpr
    exact ⟨(e, since, true), hmem, by simp [stickyStep, hh, hd, hpe]⟩
  · intro hwp
    subst hwp
    constructor
    · constructor
      · intro hin
        rcases List.mem_cons.mp hin with heq | hin'
        · exact absurd (congrArg (fun x : ActiveEntry => x.2.2) heq) (by simp)
        · obtain ⟨ent, hent, hstep⟩ := List.mem_filterMap.mp hin'
          have hid : ent.1 = e := ((stickyStep_some hstep).1).symm
          have hent_eq : ent = (e, since, false) := by
            apply identNodup_mem_unique hnd hent hmem
            rw [hid]
            exact Endpoint.same_refl e
          rw [hent_eq] at hstep
          by_contra hlt
          simp [stickyStep, hh, hd, hpe, hlt] at hstep
      · intro hlt
        apply List.mem_cons_of_mem
        apply List.mem_filterMap.mpr
        exact ⟨(e, since, false), hmem, by simp [stickyStep, hh, hd, hpe, hlt]⟩
    · intro hle x hx
      rcases List.mem_cons.mp hx with rfl | hx'
      · exact hpe
      · obtain ⟨ent, hent, hstep⟩ := List.mem_filterMap.mp hx'
        have hid := (stickyStep_some hstep).1
        by_contra hsame
        have hsame' : x.1.same e = true := by
          cases hxe : x.1.same e
          · exact absurd hxe hsame
          · rfl
        have hent_eq : ent = (e, since, false) := by
          apply identNodup_mem_unique hnd hent hmem
          rw [← hid]
          exact hsame'
        rw [hent_eq] at hstep
        have : ¬ since + d > now := by omega
        simp [stickyStep, hh, hd, hpe, this] at hstep

/-- C2 witness: with previous active set `[(epB, 2, true)]` at instant 40
and `epA` back healthy, the demoted primary `epB` is refreshed to
timestamp 40. -/
theorem c2_sticky_refresh_carry_drop_witness :
    (epB, 40, false) ∈ [(epA, 40, true), (epB, 40, false)] := by
  have h := c2_sticky_refresh_carry_drop [epA, epB] [(epB, 2, true)] 40 epA
    [(epA, 40, true), (epB, 40, false)]
    (by simp [identNodup]) (by decide) (by decide)
    epB 2 true 30 (by decide) (by decide) (by decide) (by decide)
  exact h.1 rfl

/-- A provider-API oracle where every call succeeds, for concrete
evaluations. -/
def cfEnvStub : CfEnv :=
  { listResult := Except.ok []
    deleteResult := fun _ => Except.ok ()
    createCNameResult := Except.ok "rid"
    createAddrResult := fun _ => Except.ok "rid"
    patchResult := Except.ok "rid" }

/-- A DNS-resolution oracle answering one fixed address, for concrete
evaluations. -/
def resolverStub : Endpoint → Except DnsError (List Ip) :=
  fun _ => Except.ok [Ip.v4 1]

/-- C10: calling the provider update with an empty endpoint set panics
(the `assert!` of cloudflare.rs:365-368, modelled as `none`) rather than
returning an error; and every endpoint set the selector hands to the
update is non-empty (it contains the primary), so the assertion is never
reached from the selector. -/
theorem c10_empty_update_panics_selector_nonempty :
    (∀ (resolver : Endpoint → Except DnsError (List Ip))
        (cache : Option CloudflareDnsValues) (ttl : Nat) (env : CfEnv),
      cloudflareUpdate [] resolver cache ttl env = none) ∧
    (∀ (endpoints : List Endpoint) (last : List ActiveEntry) (now : Nat)
        (hasTelegram cfOk : Bool) (eps : List Endpoint),
      (runCycle endpoints last now hasTelegram cfOk).2.cfEndpoints = some eps →
      eps ≠ []) := by
  constructor
  · intro resolver cache ttl env
    rfl
  · intro endpoints last now hasTelegram cfOk eps heps
    cases hp : selectPrimary (endpoints.filter (·.healthy)) with
    | none => simp [runCycle, hp] at heps
    | some p =>
      obtain ⟨rest, hrest⟩ := addSticky_prefix now last [(p, now, true)]
      cases cfOk with
      | false =>
        simp [runCycle, hp] at heps
        rw [← heps, hrest]
        simp
      | true =>
        simp [runCycle, hp] at heps
        rw [← heps, hrest]
        simp

/-- C10 witness: the panic on the empty set, and the non-empty set handed
over by a concrete cycle. -/
theorem c10_empty_update_panics_selector_nonempty_witness :
    cloudflareUpdate [] resolverStub none 60 cfEnvStub = none ∧
      ([epA] : List Endpoint) ≠ [] :=
  ⟨c10_empty_update_panics_selector_nonempty.1 resolverStub none 60 cfEnvStub,
    c10_empty_update_panics_selector_nonempty.2 [epA] [] 0 true true [epA] (by decide)⟩

/-- The clamp keeps the top-of-loop confidence at or below the threshold,
whatever value the previous iteration left. -/
theorem monitorClamp_le (threshold conf : Nat) :
    monitorClamp threshold conf ≤ threshold ∨ monitorClamp threshold conf = conf := by
  unfold monitorClamp
  by_cases h : conf ≥ threshold
  · simp [h]
  · simp [h]

/-- Any single iteration leaves the confidence at most `threshold + 1`:
the clamp bounds it by the threshold and the only increase is the `+ 1`
of a successful probe. -/
theorem monitorIter_le (threshold conf : Nat) (o : ProbeOutcome) :
    monitorIter threshold conf o ≤ threshold + 1 := by
  have hc : monitorClamp threshold conf ≤ max threshold conf := by
    unfold monitorClamp
    by_cases h : conf ≥ threshold
    · simp [h]
    · simp [h]
  have hc' : monitorClamp threshold conf ≤ threshold := by
    unfold monitorClamp
    by_cases h : conf ≥ threshold
    · simp [h]
    · simp [h]; omega
  cases o <;> simp [monitorIter] <;> omega

/-- The confidence counter never exceeds `threshold + 1` over any run; in
`u8` terms the increment is safe exactly when `threshold ≤ 254`. -/
theorem monitorRun_le (threshold : Nat) (outcomes : List ProbeOutcome) :
    monitorRun threshold outcomes ≤ threshold + 1 := by
  have aux : ∀ (os : List ProbeOutcome) (conf : Nat), conf ≤ threshold + 1 →
      os.foldl (monitorIter threshold) conf ≤ threshold + 1 := by
    intro os
    induction os with
    | nil => intro conf h; simpa using h
    | cons o rest ih =>
      intro conf _
      exact ih (monitorIter threshold conf o) (monitorIter_le threshold conf o)
  exact aux outcomes 0 (by omega)

set_option maxRecDepth 100000 in
/-- C8: with the maximal threshold 255, the confidence counter reaches 256
after 256 consecutive successful probes — one more than a `u8` can hold, so
the increment of endpoints.rs:293/300 overflows (panic in debug builds,
wrap-around in release builds) despite the clamp that is meant to prevent
it. -/
theorem c8_confidence_overflows_at_threshold_255 :
    monitorRun 255 (List.replicate 256 ProbeOutcome.success) = 256 ∧
      2 ^ 8 - 1 < monitorRun 255 (List.replicate 256 ProbeOutcome.success) := by
  constructor <;> decide

/-- The environment of the C1 failing input: the A query answers with one
A record, the AAAA query answers with one AAAA record, both `NoError`. -/
def c1Env : ResolveEnv :=
  { respA := Except.ok { rcode := 0, answers := [Resource.A 1] }
    respAAAA := Except.ok { rcode := 0, answers := [Resource.AAAA 2] } }

/-- C1: a successful `resolve` on a response pair holding one A and one
AAAA record returns only the A address — the AAAA record is inserted into
the shadowed set of dns.rs:157 and dropped, contradicting the documented
union of both answer sections. -/
theorem c1_resolve_drops_aaaa_answers :
    dnsResolve [c1Env] = Except.ok [Ip.v4 1] ∧ Ip.v6 2 ∉ [Ip.v4 1] :=
  ⟨rfl, by decide⟩


theorem ipSetEq_refl (a : List Ip) : ipSetEq a a = true := by
  simp [ipSetEq, List.all_eq_true]

theorem CloudflareDnsValues.beq_refl (v : CloudflareDnsValues) : v.beq v = true := by
  cases v with
  | CName s => simp [CloudflareDnsValues.beq]
  | CNameWithSticky ips => simp [CloudflareDnsValues.beq, ipSetEq_refl]

theorem applyFullThenCreate_ok {env : CfEnv} {state : CloudflareDnsValues}
    {ttl : Nat} {cache c' : Option CloudflareDnsValues} {u : Unit}
    {a' : List CfAction}
    (h : applyFullThenCreate env state ttl cache = (Except.ok u, c', a')) :
    c' = some state := by
  unfold applyFullThenCreate at h
  rcases h1 : fullCleanup env with ⟨r1, acts1⟩
  rw [h1] at h
  cases r1 with
  | error e => simp [Prod.mk.injEq] at h
  | ok _ =>
    rcases h2 : createPhase env state ttl with ⟨r2, acts2⟩
    simp only [h2] at h
    cases r2 with
    | error e => simp [Prod.mk.injEq] at h
    | ok _ =>
      simp only [Prod.mk.injEq] at h
      exact h.2.1.symm

theorem inner_update_ok_cache {cache : Option CloudflareDnsValues}
    {state : CloudflareDnsValues} {ttl : Nat} {env : CfEnv} {u : Unit}
    {c' : Option CloudflareDnsValues} {a' : List CfAction}
    (h : inner_update cache state ttl env = (Except.ok u, c', a')) :
    ∃ v, c' = some v ∧ v.beq state = true := by
  cases cache with
  | none => exact ⟨state, applyFullThenCreate_ok h, CloudflareDnsValues.beq_refl state⟩
  | some c =>
    by_cases hbeq : c.beq state = true
    · simp only [inner_update, hbeq, if_true] at h
      simp only [Prod.mk.injEq] at h
      exact ⟨c, h.2.1.symm, hbeq⟩
    · have hbeq' : c.beq state = false := Bool.eq_false_iff.mpr hbeq
      cases c with
      | CName a =>
        cases state with
        | CName b =>
          simp only [inner_update, hbeq', Bool.false_eq_true, if_false] at h
          rcases hj : justUpdatePhase env b ttl with ⟨rj, actsj⟩
          rw [hj] at h
          cases rj with
          | ok _ =>
            simp only [Prod.mk.injEq] at h
            exact ⟨CloudflareDnsValues.CName b, h.2.1.symm,
              CloudflareDnsValues.beq_refl _⟩
          | error e => simp [Prod.mk.injEq] at h
        | CNameWithSticky ips =>
          simp only [inner_update, hbeq', Bool.false_eq_true, if_false] at h
          exact ⟨_, applyFullThenCreate_ok h, CloudflareDnsValues.beq_refl _⟩
      | CNameWithSticky ips =>
        cases state with
        | CName b =>
          simp only [inner_update, hbeq', Bool.false_eq_true, if_false] at h
          exact ⟨_, applyFullThenCreate_ok h, CloudflareDnsValues.beq_refl _⟩
        | CNameWithSticky ips2 =>
          simp only [inner_update, hbeq', Bool.false_eq_true, if_false] at h
          exact ⟨_, applyFullThenCreate_ok h, CloudflareDnsValues.beq_refl _⟩

theorem inner_update_noop (c0 : CloudflareDnsValues) (state : CloudflareDnsValues)
    (ttl : Nat) (env : CfEnv) (hb : c0.beq state = true) :
    inner_update (some c0) state ttl env = (Except.ok (), some c0, []) := by
  simp [inner_update, hb]

/-- C3: after every completed call of the public update, an error leaves
the cache absent and is propagated, while success leaves the cache equal
(in the source's state equality) to the freshly computed desired state;
when the cache already equals the desired state the call succeeds without
issuing any API action. -/
theorem c3_update_cache_consistency (endpoints : List Endpoint)
    (resolver : Endpoint → Except DnsError (List Ip))
    (cache : Option CloudflareDnsValues) (ttl : Nat) (env : CfEnv)
    (r : Except CloudflareUpdateError Unit) (c : Option CloudflareDnsValues)
    (a : List CfAction)
    (h : cloudflareUpdate endpoints resolver cache ttl env = some (r, c, a)) :
    (∀ e, r = Except.error e → c = none) ∧
    (r = Except.ok () → ∃ s, computeState endpoints resolver = Except.ok s ∧
      ∃ v, c = some v ∧ v.beq s = true) ∧
    (∀ s v, computeState endpoints resolver = Except.ok s → cache = some v →
      v.beq s = true → r = Except.ok () ∧ a = []) := by
  unfold cloudflareUpdate at h
  by_cases hemp : endpoints.isEmpty = true
  · simp [hemp] at h
  · simp only [hemp, Bool.false_eq_true, if_false] at h
    cases hcs : computeState endpoints resolver with
    | error e0 =>
      rw [hcs] at h
      simp only [Option.some.injEq, Prod.mk.injEq] at h
      obtain ⟨hr, hc, ha⟩ := h
      refine ⟨fun e _ => hc.symm, fun hok => ?_, fun s v hs _ _ => ?_⟩
      · rw [← hr] at hok; cases hok
      · cases hs
    | ok s0 =>
      rw [hcs] at h
      rcases hi : inner_update cache s0 ttl env with ⟨ri, ci, ai⟩
      simp only [hi] at h
      cases ri with
      | ok u =>
        simp only [Option.some.injEq, Prod.mk.injEq] at h
        obtain ⟨hr, hc, ha⟩ := h
        refine ⟨fun e he => ?_, fun _ => ?_, fun s v hs hcache hb => ?_⟩
        · rw [← hr] at he; cases he
        · obtain ⟨v, hv, hvb⟩ := inner_update_ok_cache hi
          exact ⟨s0, rfl, v, hc ▸ hv, hvb⟩
        · have hs0 : s0 = s := Except.ok.inj hs
          subst hs0
          subst hcache
          rw [inner_update_noop v s0 ttl env hb] at hi
          simp only [Prod.mk.injEq] at hi
          exact ⟨hr.symm, ha ▸ hi.2.2.symm⟩
      | error e1 =>
        simp only [Option.some.injEq, Prod.mk.injEq] at h
        obtain ⟨hr, hc, ha⟩ := h
        refine ⟨fun e _ => hc.symm, fun hok => ?_, fun s v hs hcache hb => ?_⟩
        · rw [← hr] at hok; cases hok
        · have hs0 : s0 = s := Except.ok.inj hs
          subst hs0
          subst hcache
          rw [inner_update_noop v s0 ttl env hb] at hi
          simp at hi

/-- C3 witness: a concrete successful update from an empty cache leaves the
cache holding the computed CNAME state. -/
theorem c3_update_cache_consistency_witness :
    ∃ s, computeState [epA] resolverStub = Except.ok s ∧
      ∃ v, (some (CloudflareDnsValues.CName "a.example") :
          Option CloudflareDnsValues) = some v ∧ v.beq s = true :=
  (c3_update_cache_consistency [epA] resolverStub none 60 cfEnvStub
    (Except.ok ()) (some (CloudflareDnsValues.CName "a.example"))
    [CfAction.list, CfAction.createCName "a.example" 60] rfl).2.1 rfl

theorem deleteAll_ok (env : CfEnv) (ids : List String)
    (h : ∀ id ∈ ids, env.deleteResult id = Except.ok ()) :
    deleteAll env ids = (Except.ok (), ids.map CfAction.delete) := by
  induction ids with
  | nil => rfl
  | cons id rest ih =>
    have hid := h id (List.mem_cons_self _ _)
    rw [deleteAll, hid, ih (fun x hx => h x (List.mem_cons_of_mem _ hx))]
    rfl

/-- C4: with a cached state different from the new one, the update-in-place
path runs exactly when both are the CNAME variant; there a record count
other than one aborts with `Conflict` after the single enumeration (no
PATCH issued), and a count of one patches that record with the new target
and TTL.  Every other unequal transition enumerates, deletes all existing
records and creates the new ones. -/
theorem c4_update_in_place_vs_cleanup (c0 state : CloudflareDnsValues)
    (ttl : Nat) (env : CfEnv) (hne : c0.beq state = false) :
    (∀ cnOld cnNew ids, c0 = CloudflareDnsValues.CName cnOld →
      state = CloudflareDnsValues.CName cnNew →
      env.listResult = Except.ok ids → ids.length ≠ 1 →
      inner_update (some c0) state ttl env =
        (Except.error CloudflareUpdateError.Conflict, some c0, [CfAction.list])) ∧
    (∀ cnOld cnNew id pid, c0 = CloudflareDnsValues.CName cnOld →
      state = CloudflareDnsValues.CName cnNew →
      env.listResult = Except.ok [id] → env.patchResult = Except.ok pid →
      inner_update (some c0) state ttl env =
        (Except.ok (), some state,
          [CfAction.list, CfAction.patchCName id cnNew ttl])) ∧
    (∀ ids cacts,
      (¬ ∃ x y, c0 = CloudflareDnsValues.CName x ∧
        state = CloudflareDnsValues.CName y) →
      env.listResult = Except.ok ids →
      (∀ id ∈ ids, env.deleteResult id = Except.ok ()) →
      createPhase env state ttl = (Except.ok (), cacts) →
      inner_update (some c0) state ttl env =
        (Except.ok (), some state,
          (CfAction.list :: ids.map CfAction.delete) ++ cacts)) := by
  refine ⟨?_, ?_, ?_⟩
  · intro cnOld cnNew ids hc hs hlist hlen
    subst hc; subst hs
    simp only [inner_update, hne, Bool.false_eq_true, if_false]
    rw [justUpdatePhase, hlist]
    cases ids with
    | nil => rfl
    | cons id rest =>
      cases rest with
      | nil => exact absurd rfl hlen
      | cons id2 rest2 => rfl
  · intro cnOld cnNew id pid hc hs hlist hpatch
    subst hc; subst hs
    simp only [inner_update, hne, Bool.false_eq_true, if_false]
    rw [justUpdatePhase, hlist, hpatch]
  · intro ids cacts hnotcname hlist hdel hcp
    have happly : applyFullThenCreate env state ttl (some c0) =
        (Except.ok (), some state, (CfAction.list :: ids.map CfAction.delete) ++ cacts) := by
      rw [applyFullThenCreate, fullCleanup, hlist]
      simp only [deleteAll_ok env ids hdel, hcp]
    cases c0 with
    | CName x =>
      cases state with
      | CName y => exact absurd ⟨x, y, rfl, rfl⟩ hnotcname
      | CNameWithSticky ips =>
        simp only [inner_update, hne, Bool.false_eq_true, if_false]
        exact happly
    | CNameWithSticky ips =>
      cases state with
      | CName y =>
        simp only [inner_update, hne, Bool.false_eq_true, if_false]
        exact happly
      | CNameWithSticky ips2 =>
        simp only [inner_update, hne, Bool.false_eq_true, if_false]
        exact happly

/-- C4 witness: a conflicting in-place update (two records found) and a
full cleanup from CNAME to multi-address on concrete oracles. -/
theorem c4_update_in_place_vs_cleanup_witness :
    inner_update (some (CloudflareDnsValues.CName "old.example"))
      (CloudflareDnsValues.CName "new.example") 60
      { cfEnvStub with listResult := Except.ok ["r1", "r2"] } =
      (Except.error CloudflareUpdateError.Conflict,
        some (CloudflareDnsValues.CName "old.example"), [CfAction.list]) :=
  (c4_update_in_place_vs_cleanup (CloudflareDnsValues.CName "old.example")
    (CloudflareDnsValues.CName "new.example") 60
    { cfEnvStub with listResult := Except.ok ["r1", "r2"] }
    (by decide)).1 "old.example" "new.example" ["r1", "r2"] rfl rfl rfl
    (by decide)

theorem sendLoop_take_drop (rfc : Nat → String) (now : Nat) (post : Nat → Bool) :
    ∀ (q : List QEntry) (j k : Nat), k ≤ q.length →
      (∀ i, i < k → post (j + i) = true) →
      (k = q.length ∨ post (j + k) = false) →
      sendLoop rfc now post j q =
        ((q.take k).map (prepareText rfc now), q.drop k) := by
  intro q
  induction q with
  | nil =>
    intro j k hk _ _
    have : k = 0 := Nat.le_zero.mp hk
    subst this
    simp [sendLoop]
  | cons e rest ih =>
    intro j k hk hsucc hstop
    cases k with
    | zero =>
      have hpost : post j = false := by
        rcases hstop with heq | hp
        · simp at heq
        · simpa using hp
      rw [sendLoop]
      simp [hpost]
    | succ k' =>
      have hpj : post j = true := by
        have := hsucc 0 (Nat.succ_pos k')
        simpa using this
      have hk' : k' ≤ rest.length := by
        simp at hk
        omega
      have hsucc' : ∀ i, i < k' → post (j + 1 + i) = true := by
        intro i hi
        have := hsucc (i + 1) (by omega)
        have harith : j + (i + 1) = j + 1 + i := by omega
        rw [harith] at this
        exact this
      have hstop' : k' = rest.length ∨ post (j + 1 + k') = false := by
        rcases hstop with heq | hp
        · left
          simp at heq
          omega
        · right
          have harith : j + (k' + 1) = j + 1 + k' := by omega
          rw [harith] at hp
          exact hp
      rw [sendLoop]
      simp only [hpj, if_true]
      rw [ih (j + 1) k' hk' hsucc' hstop']
      simp

/-- C9: the drain of `send()` is strictly FIFO — with `post i` the oracle
outcome of the i-th POST, a drain that succeeds `k` times and then stops
posts exactly the first `k` entries, each prepared from the front of the
queue, and leaves the rest queued; the prepared text carries the
delayed-message suffix with the entry's rendered creation timestamp exactly
when more than 10 (whole) seconds have elapsed since the entry was
created. -/
theorem c9_send_fifo_drain (rfc : Nat → String) (now : Nat) (post : Nat → Bool)
    (queue : List QEntry) (hlen : queue.length ≤ 128)
    (hts : ∀ e ∈ queue, e.created ≤ now)
    (k : Nat) (hk : k ≤ queue.length)
    (hsucc : ∀ i, i < k → post i = true)
    (hstop : k = queue.length ∨ post k = false) :
    telegramSend rfc now post queue =
      some ((queue.take k).map (prepareText rfc now), queue.drop k) ∧
    (∀ e ∈ queue,
      (prepareText rfc now e = e.text ++ delayedSuffix rfc e.created ↔
        now - e.created > 10)) := by
  constructor
  · by_cases hq : queue.isEmpty = true
    · have : queue = [] := List.isEmpty_iff.mp hq
      subst this
      have : k = 0 := Nat.le_zero.mp hk
      subst this
      simp [telegramSend]
    · have hgt : ¬ queue.length > 128 := by omega
      rw [telegramSend]
      simp only [hq, Bool.false_eq_true, if_false, hgt, if_false]
      rw [sendLoop_take_drop rfc now post queue 0 k hk
        (fun i hi => by simpa using hsucc i hi)
        (by simpa using hstop)]
  · intro e _
    constructor
    · intro heq
      by_cases h10 : now - e.created > 10
      · exact h10
      · rw [prepareText] at heq
        simp only [h10, if_false] at heq
        have hlen' := congrArg String.length heq
        rw [String.length_append] at hlen'
        have hpos : 0 < (delayedSuffix rfc e.created).length := by
          rw [delayedSuffix, String.length_append, String.length_append]
          have : 0 < ("\n\n_This is a delayed message from `" : String).length := by
            decide
          omega
        omega
    · intro h10
      simp [prepareText, h10]

/-- A fixed timestamp renderer for concrete evaluations. -/
def rfcStub : Nat → String := fun _ => "TS"

/-- C9 witness: a two-entry queue whose first POST succeeds and second
fails drains exactly the first entry (annotated, being 100 s old) and
keeps the second. -/
theorem c9_send_fifo_drain_witness :
    telegramSend rfcStub 100 (fun i => i == 0)
        [{ text := "m1", created := 0 }, { text := "m2", created := 95 }] =
      some (([{ text := "m1", created := 0 },
              { text := "m2", created := 95 }].take 1).map
          (prepareText rfcStub 100),
        [{ text := "m1", created := 0 }, { text := "m2", created := 95 }].drop 1) :=
  (c9_send_fifo_drain rfcStub 100 (fun i => i == 0)
    [{ text := "m1", created := 0 }, { text := "m2", created := 95 }]
    (by decide) (by decide) 1 (by decide)
    (by decide) (by decide)).1

/- ------------------------------------------------------------------ -/
/- Properties of the notification message construction (C5)            -/
/- ------------------------------------------------------------------ -/

instance : IsTotal (Nat × Endpoint) (fun a b => a.1 ≤ b.1) :=
  ⟨fun a b => Nat.le_total a.1 b.1⟩

instance : IsTrans (Nat × Endpoint) (fun a b => a.1 ≤ b.1) :=
  ⟨fun _ _ _ h1 h2 => le_trans h1 h2⟩

theorem insertByWeight_keys_replace {m : List (Nat × Endpoint)} {e : Endpoint}
    (h : m.any (fun kv => kv.1 == e.weight) = true) :
    (insertByWeight m e).map (fun kv => kv.1) = m.map (fun kv => kv.1) := by
  rw [insertByWeight, if_pos h, List.map_map]
  apply List.map_congr_left
  intro kv _
  by_cases hkv : kv.1 = e.weight
  · simp [hkv]
  · simp [hkv]

theorem insertByWeight_keys_append {m : List (Nat × Endpoint)} {e : Endpoint}
    (h : ¬ m.any (fun kv => kv.1 == e.weight) = true) :
    (insertByWeight m e).map (fun kv => kv.1) =
      m.map (fun kv => kv.1) ++ [e.weight] := by
  rw [insertByWeight, if_neg h]
  simp

theorem insertByWeight_keys_nodup (m : List (Nat × Endpoint)) (e : Endpoint)
    (h : (m.map (fun kv => kv.1)).Nodup) :
    ((insertByWeight m e).map (fun kv => kv.1)).Nodup := by
  by_cases hany : m.any (fun kv => kv.1 == e.weight) = true
  · rw [insertByWeight_keys_replace hany]
    exact h
  · rw [insertByWeight_keys_append hany]
    rw [List.nodup_append]
    refine ⟨h, List.nodup_singleton _, ?_⟩
    intro w hw hw'
    obtain ⟨kv, hkv, hkvw⟩ := List.mem_map.mp hw
    have : w = e.weight := List.mem_singleton.mp hw'
    subst this
    apply hany
    rw [List.any_eq_true]
    exact ⟨kv, hkv, by simp [hkvw]⟩

theorem foldl_insertByWeight_keys_nodup (l : List Endpoint) :
    ∀ m : List (Nat × Endpoint), (m.map (fun kv => kv.1)).Nodup →
      ((l.foldl insertByWeight m).map (fun kv => kv.1)).Nodup := by
  induction l with
  | nil => intro m h; simpa using h
  | cons e rest ih =>
    intro m h
    exact ih (insertByWeight m e) (insertByWeight_keys_nodup m e h)

theorem insertByWeight_mem {m : List (Nat × Endpoint)} {e : Endpoint}
    {kv : Nat × Endpoint} (h : kv ∈ insertByWeight m e) :
    kv ∈ m ∨ (kv.1 = e.weight ∧ kv.2 = e) := by
  rw [insertByWeight] at h
  by_cases hany : m.any (fun x => x.1 == e.weight) = true
  · rw [if_pos hany] at h
    obtain ⟨kv0, hkv0, heq⟩ := List.mem_map.mp h
    by_cases hk : kv0.1 == e.weight
    · right
      rw [if_pos hk] at heq
      constructor
      · rw [← heq]
        simpa using hk
      · rw [← heq]
    · left
      rw [if_neg hk] at heq
      rw [← heq]
      exact hkv0
  · rw [if_neg hany] at h
    rcases List.mem_append.mp h with hm | hs
    · exact Or.inl hm
    · right
      have := List.mem_singleton.mp hs
      simp [this]

theorem foldl_insertByWeight_mem (l : List Endpoint) :
    ∀ (m : List (Nat × Endpoint)) (kv : Nat × Endpoint),
      kv ∈ l.foldl insertByWeight m →
      kv ∈ m ∨ ∃ e ∈ l, kv.1 = e.weight ∧ kv.2 = e := by
  induction l with
  | nil => intro m kv h; exact Or.inl h
  | cons a rest ih =>
    intro m kv h
    rcases ih (insertByWeight m a) kv h with hin | ⟨e, he, hkv⟩
    · rcases insertByWeight_mem hin with hm | hval
      · exact Or.inl hm
      · exact Or.inr ⟨a, List.mem_cons_self _ _, hval⟩
    · exact Or.inr ⟨e, List.mem_cons_of_mem _ he, hkv⟩

theorem insertByWeight_key_present (m : List (Nat × Endpoint)) (e : Endpoint) :
    ∃ kv ∈ insertByWeight m e, kv.1 = e.weight := by
  rw [insertByWeight]
  by_cases hany : m.any (fun x => x.1 == e.weight) = true
  · rw [if_pos hany]
    obtain ⟨kv0, hkv0, hk⟩ := List.any_eq_true.mp hany
    refine ⟨(kv0.1, e), ?_, by simpa using hk⟩
    apply List.mem_map.mpr
    exact ⟨kv0, hkv0, by rw [if_pos hk]⟩
  · rw [if_neg hany]
    exact ⟨(e.weight, e), by simp, rfl⟩

theorem insertByWeight_keys_mono (m : List (Nat × Endpoint)) (e : Endpoint)
    {kv : Nat × Endpoint} (h : kv ∈ m) :
    ∃ kv' ∈ insertByWeight m e, kv'.1 = kv.1 := by
  rw [insertByWeight]
  by_cases hany : m.any (fun x => x.1 == e.weight) = true
  · rw [if_pos hany]
    by_cases hk : kv.1 == e.weight
    · refine ⟨(kv.1, e), ?_, rfl⟩
      apply List.mem_map.mpr
      exact ⟨kv, h, by rw [if_pos hk]⟩
    · refine ⟨kv, ?_, rfl⟩
      apply List.mem_map.mpr
      exact ⟨kv, h, by rw [if_neg hk]⟩
  · rw [if_neg hany]
    exact ⟨kv, List.mem_append_left _ h, rfl⟩

theorem foldl_insertByWeight_keys_mono (l : List Endpoint) :
    ∀ (m : List (Nat × Endpoint)) (kv : Nat × Endpoint), kv ∈ m →
      ∃ kv' ∈ l.foldl insertByWeight m, kv'.1 = kv.1 := by
  induction l with
  | nil => intro m kv h; exact ⟨kv, h, rfl⟩
  | cons a rest ih =>
    intro m kv h
    obtain ⟨kv1, hkv1, hk1⟩ := insertByWeight_keys_mono m a h
    obtain ⟨kv2, hkv2, hk2⟩ := ih (insertByWeight m a) kv1 hkv1
    exact ⟨kv2, hkv2, hk2.trans hk1⟩

theorem foldl_insertByWeight_all_present (l : List Endpoint) :
    ∀ (m : List (Nat × Endpoint)) (e : Endpoint), e ∈ l →
      ∃ kv ∈ l.foldl insertByWeight m, kv.1 = e.weight := by
  induction l with
  | nil => intro m e h; cases h
  | cons a rest ih =>
    intro m e h
    rcases List.mem_cons.mp h with rfl | h'
    · obtain ⟨kv, hkv, hk⟩ := insertByWeight_key_present m e
      obtain ⟨kv', hkv', hk'⟩ := foldl_insertByWeight_keys_mono rest _ kv hkv
      exact ⟨kv', hkv', hk'.trans hk⟩
    · exact ih (insertByWeight m a) e h'

theorem buildMessage_spec (endpoints : List Endpoint) (p : Endpoint) :
    (buildMessage endpoints p).primaryName = p.name ∧
    (buildMessage endpoints p).listed.Pairwise (fun a b => a.1 ≤ b.1) ∧
    ((buildMessage endpoints p).listed.map (fun x => x.1)).Nodup ∧
    (∀ x ∈ (buildMessage endpoints p).listed, ∃ e ∈ endpoints,
      e.weight = x.1 ∧ e.name = x.2.1 ∧ e.healthy = x.2.2) ∧
    (∀ e ∈ endpoints, ∃ x ∈ (buildMessage endpoints p).listed, x.1 = e.weight) := by
  have hperm : List.Perm
      ((endpoints.foldl insertByWeight []).insertionSort
        (fun a b => a.1 ≤ b.1))
      (endpoints.foldl insertByWeight []) :=
    List.perm_insertionSort _ _
  refine ⟨rfl, ?_, ?_, ?_, ?_⟩
  · apply List.pairwise_map.mpr
    exact (List.sorted_insertionSort _ _).imp (fun h => h)
  · have hkeys : ((buildMessage endpoints p).listed.map (fun x => x.1)) =
        ((endpoints.foldl insertByWeight []).insertionSort
          (fun a b => a.1 ≤ b.1)).map (fun kv => kv.1) := by
      rw [buildMessage]
      rw [List.map_map]
      rfl
    rw [hkeys]
    have hnodup : ((endpoints.foldl insertByWeight []).map
        (fun kv => kv.1)).Nodup :=
      foldl_insertByWeight_keys_nodup endpoints [] (by simp)
    exact ((hperm.map (fun kv => kv.1)).nodup_iff).mpr hnodup
  · intro x hx
    obtain ⟨kv, hkv, hfx⟩ := List.mem_map.mp hx
    have hkvm : kv ∈ endpoints.foldl insertByWeight [] := hperm.subset hkv
    rcases foldl_insertByWeight_mem endpoints [] kv hkvm with hnil | ⟨e, he, hk, hv⟩
    · cases hnil
    · refine ⟨e, he, ?_, ?_, ?_⟩
      · rw [← hfx, ← hk]
      · rw [← hfx, ← hv]
      · rw [← hfx, ← hv]
  · intro e he
    obtain ⟨kv, hkv, hk⟩ := foldl_insertByWeight_all_present endpoints [] e he
    refine ⟨(kv.1, kv.2.name, kv.2.healthy), ?_, hk⟩
    apply List.mem_map.mpr
    exact ⟨kv, hperm.mem_iff.mpr hkv, rfl⟩

/-- C5 (amended): with Telegram configured and the provider update
succeeding, a notification is enqueued iff the new primary differs by
endpoint identity from the previous cycle's primary (absence of a prior
primary counts as changed); the message names the new primary and lists,
sorted by weight ascending, one configured endpoint per distinct weight
value, each with its health status. -/
theorem c5_notification_on_primary_change (endpoints : List Endpoint)
    (last : List ActiveEntry) (now : Nat) (p : Endpoint)
    (na : List ActiveEntry) (eff : CycleEffects)
    (hp : selectPrimary (endpoints.filter (·.healthy)) = some p)
    (hOne : ∀ x ∈ last, ∀ y ∈ last, x.2.2 = true → y.2.2 = true → x = y)
    (h : runCycle endpoints last now true true = (na, eff)) :
    (eff.notified.isSome = true ↔
      ¬ ∃ x ∈ last, x.2.2 = true ∧ x.1.same p = true) ∧
    (∀ msg, eff.notified = some msg →
      msg.primaryName = p.name ∧
      msg.listed.Pairwise (fun a b => a.1 ≤ b.1) ∧
      (msg.listed.map (fun x => x.1)).Nodup ∧
      (∀ x ∈ msg.listed, ∃ e ∈ endpoints,
        e.weight = x.1 ∧ e.name = x.2.1 ∧ e.healthy = x.2.2) ∧
      (∀ e ∈ endpoints, ∃ x ∈ msg.listed, x.1 = e.weight)) := by
  rw [runCycle, hp] at h
  simp only [Bool.not_true, Bool.false_eq_true, if_false, Bool.true_and,
    Prod.mk.injEq] at h
  obtain ⟨-, heff⟩ := h
  rw [← heff]
  cases hfind : last.find? (fun x => x.2.2) with
  | none =>
    constructor
    · simp only [hfind]
      simp only [if_true, Option.isSome_some, true_iff]
      rintro ⟨x, hx, hxp, -⟩
      have := List.find?_eq_none.mp hfind x hx
      exact this hxp
    · intro msg hmsg
      simp only [hfind, if_true] at hmsg
      have := Option.some.inj hmsg
      rw [← this]
      exact buildMessage_spec endpoints p
  | some f =>
    have hfmem : f ∈ last := List.mem_of_find?_eq_some hfind
    have hfprim : f.2.2 = true := by
      have := List.find?_some hfind
      simpa using this
    cases hsame : f.1.same p with
    | true =>
      constructor
      · simp only [hfind, hsame]
        simp only [Bool.not_true, Bool.false_eq_true, if_false,
          Option.isSome_none, false_iff, not_not]
        exact ⟨f, hfmem, hfprim, hsame⟩
      · intro msg hmsg
        simp only [hfind, hsame] at hmsg
        simp at hmsg
    | false =>
      constructor
      · simp only [hfind, hsame]
        simp only [Bool.not_false, if_true, Option.isSome_some, true_iff]
        rintro ⟨x, hx, hxp, hxs⟩
        have hxf : x = f := hOne x hx f hfmem hxp hfprim
        rw [hxf] at hxs
        rw [hsame] at hxs
        cases hxs
      · intro msg hmsg
        simp only [hfind, hsame, Bool.not_false, if_true] at hmsg
        have := Option.some.inj hmsg
        rw [← this]
        exact buildMessage_spec endpoints p

/-- C5 witness: a concrete cycle in which the primary flips from `epB` to
`epA` enqueues a notification. -/
theorem c5_notification_on_primary_change_witness :
    ((runCycle [epA, epB] [(epB, 2, true)] 40 true true).2.notified.isSome =
      true) := by
  have h := c5_notification_on_primary_change [epA, epB] [(epB, 2, true)] 40
    epA (runCycle [epA, epB] [(epB, 2, true)] 40 true true).1
    (runCycle [epA, epB] [(epB, 2, true)] 40 true true).2
    (by decide) (by decide) rfl
  rw [h.1]
  rintro ⟨x, hx, -, hxs⟩
  have : x = (epB, 2, true) := List.mem_singleton.mp hx
  rw [this] at hxs
  cases hxs

/-- C5 counterexample: with two healthy endpoints of equal weight (10),
the weight-keyed `HashMap` of ingress.rs:328-331 keeps only one of them, so
the enqueued message does not list all configured endpoints — here the
primary `a` itself is missing from the listing. -/
theorem c5_counterexample_equal_weights_dropped :
    (runCycle [epA, epC] [] 0 true true).2.notified =
      some { primaryName := "a", listed := [(10, "c", true)] } ∧
    "a" ∉ ([(10, "c", true)] : List (Nat × String × Bool)).map
      (fun x => x.2.1) ∧
    "a" ∈ [epA, epC].map Endpoint.name := by
  refine ⟨by decide, by decide, by decide⟩
